import Mathlib

/-!
# Verification of the floem-picker color engine

Shallow embedding of the color conversion library (`src/math.rs`), the
`SolidColor` value type (`src/color.rs`), the synchronization effects of
`color_editor` (`src/color_editor.rs`), and the brightness-slider raster
cache (`src/brightness_slider.rs`).

Machine floating point (`f64`) is modelled by exact rational arithmetic `ℚ`;
the per-channel propagation tolerances of the engine (0.001–0.005) dwarf
`f64` rounding error, so the exact model is faithful for every stated
tolerance property.  Rust numeric primitives that the sources use are
modelled explicitly: `f64::round` (half away from zero), the `%` operator on
`f64` (remainder with truncated quotient), `f64::rem_euclid`, and the
saturating `as u8` / `as u32` float-to-integer casts.
-/

namespace FloemPicker

/-- Rust `f64` truncation toward zero, as used by float `as` integer casts
and by the `%` remainder operator. -/
def ratTrunc (x : ℚ) : ℤ :=
  if 0 ≤ x then ⌊x⌋ else ⌈x⌉

/-- Rust `f64::round`: rounds half away from zero. -/
def rustRound (x : ℚ) : ℤ :=
  if 0 ≤ x then ⌊x + 1/2⌋ else ⌈x - 1/2⌉

/-- Rust saturating float-to-`u8` cast (`as u8` on an `f64`). -/
def u8sat (z : ℤ) : ℕ :=
  if z < 0 then 0 else if 255 < z then 255 else z.toNat

/-- Rust saturating float-to-`u32` cast (`as u32` on an `f64`). -/
def u32sat (z : ℤ) : ℕ :=
  if z < 0 then 0 else min z.toNat (2 ^ 32 - 1)

/-- Rust `%` on `f64`: remainder with quotient truncated toward zero. -/
def rustRem (a b : ℚ) : ℚ :=
  a - b * (ratTrunc (a / b) : ℚ)

/-- Rust `f64::rem_euclid`: remainder with floored quotient. -/
def remEuclid (a b : ℚ) : ℚ :=
  a - b * (⌊a / b⌋ : ℚ)

/-- `src/math.rs`: `hsb_to_rgb`.  HSB/HSV → RGB, all values 0.0–1.0.
`let i = h6.floor() as u32` is the saturating cast, `let f = h6 - h6.floor()`
the fractional part. -/
def hsb_to_rgb (h s v : ℚ) : ℚ × ℚ × ℚ :=
  if s = 0 then (v, v, v)
  else
    let h6 := rustRem (h * 6) 6
    let i : ℕ := u32sat ⌊h6⌋
    let f := h6 - (⌊h6⌋ : ℚ)
    let p := v * (1 - s)
    let q := v * (1 - s * f)
    let t := v * (1 - s * (1 - f))
    match i % 6 with
    | 0 => (v, t, p)
    | 1 => (q, v, p)
    | 2 => (p, v, t)
    | 3 => (p, q, v)
    | 4 => (t, p, v)
    | _ => (v, p, q)

/-- `src/math.rs`: `rgb_to_hsb`.  RGB → HSB/HSV, all values 0.0–1.0. -/
def rgb_to_hsb (r g b : ℚ) : ℚ × ℚ × ℚ :=
  let mx := max (max r g) b
  let mn := min (min r g) b
  let delta := mx - mn
  let v := mx
  let s := if mx = 0 then 0 else delta / mx
  let h :=
    if delta = 0 then 0
    else if mx = r then remEuclid ((g - b) / delta) 6 / 6
    else if mx = g then ((b - r) / delta + 2) / 6
    else ((r - g) / delta + 4) / 6
  (h, s, v)

/-- `src/math.rs`: `hsl_to_hsb`. -/
def hsl_to_hsb (h s_hsl l : ℚ) : ℚ × ℚ × ℚ :=
  let v := l + s_hsl * min l (1 - l)
  let s_hsb := if v = 0 then 0 else 2 * (1 - l / v)
  (h, s_hsb, v)

/-- `src/math.rs`: `hsb_to_hsl`. -/
def hsb_to_hsl (h s_hsb v : ℚ) : ℚ × ℚ × ℚ :=
  let l := v * (1 - s_hsb / 2)
  let s_hsl := if l = 0 ∨ l = 1 then 0 else (v - l) / min l (1 - l)
  (h, s_hsl, l)

/-- Rust `char::is_ascii_hexdigit`: `0-9`, `a-f`, `A-F`. -/
def isAsciiHexDigit (c : Char) : Bool :=
  decide ((48 ≤ c.toNat ∧ c.toNat ≤ 57) ∨ (97 ≤ c.toNat ∧ c.toNat ≤ 102) ∨
    (65 ≤ c.toNat ∧ c.toNat ≤ 70))

/-- An uppercase hex digit: `0-9` or `A-F`. -/
def isUpperHexDigit (c : Char) : Bool :=
  decide ((48 ≤ c.toNat ∧ c.toNat ≤ 57) ∨ (65 ≤ c.toNat ∧ c.toNat ≤ 70))

/-- ASCII uppercasing of one character; Rust's `str::to_uppercase` acts like
this on the all-ASCII strings the sources feed it. -/
def asciiToUpper (c : Char) : Char :=
  if 97 ≤ c.toNat ∧ c.toNat ≤ 122 then Char.ofNat (c.toNat - 32) else c

/-- ASCII uppercasing of a string (as a character list). -/
def upperStr (s : List Char) : List Char :=
  s.map asciiToUpper

/-- Rust `str::trim_start_matches('#')`: drops every leading `#`. -/
def stripHash (s : List Char) : List Char :=
  s.dropWhile (fun c => c = '#')

/-- Value of one hex digit (`u8::from_str_radix(_, 16)` on a single
checked-hexdigit character). -/
def hexDigitVal (c : Char) : ℕ :=
  if 48 ≤ c.toNat ∧ c.toNat ≤ 57 then c.toNat - 48
  else if 97 ≤ c.toNat ∧ c.toNat ≤ 102 then c.toNat - 87
  else if 65 ≤ c.toNat ∧ c.toNat ≤ 70 then c.toNat - 55
  else 0

/-- Value of the two-hexdigit slice starting at index `i`
(`u8::from_str_radix(&s[i..i+2], 16)`; it cannot fail nor overflow on the
already-checked hexdigit slices the source applies it to). -/
def hexPairVal (s : List Char) (i : ℕ) : ℕ :=
  hexDigitVal (s.getD i '0') * 16 + hexDigitVal (s.getD (i + 1) '0')

/-- `src/math.rs`: `normalize_hex`.  Uppercase, expand shorthand, default to
gray `808080FF` if invalid; always 8 chars. -/
def normalize_hex (hex : List Char) : List Char :=
  let stripped := stripHash hex
  if ¬ (stripped.all isAsciiHexDigit) then "808080FF".toList
  else if stripped.length = 3 then
    upperStr ((stripped.flatMap fun c => [c, c]) ++ "FF".toList)
  else if stripped.length = 6 then
    upperStr stripped ++ "FF".toList
  else if stripped.length = 8 then
    upperStr stripped
  else "808080FF".toList

/-- `src/color.rs`: `SolidColor` — RGBA with components nominally 0.0–1.0. -/
structure SolidColor where
  r : ℚ
  g : ℚ
  b : ℚ
  a : ℚ
deriving DecidableEq, Repr

namespace SolidColor

/-- `src/color.rs`: `Default for SolidColor`. -/
def default : SolidColor := ⟨1/2, 1/2, 1/2, 1⟩

/-- `src/color.rs`: `SolidColor::from_rgb` (arguments are `u8`). -/
def from_rgb (r g b : ℕ) : SolidColor :=
  ⟨(r : ℚ) / 255, (g : ℚ) / 255, (b : ℚ) / 255, 1⟩

/-- `src/color.rs`: `SolidColor::to_rgb` — `(ch * 255.0).round() as u8`. -/
def to_rgb (c : SolidColor) : ℕ × ℕ × ℕ :=
  (u8sat (rustRound (c.r * 255)), u8sat (rustRound (c.g * 255)),
    u8sat (rustRound (c.b * 255)))

/-- `src/color.rs`: `SolidColor::from_hex`.  Strips leading `#`s, requires
every character to be a hex digit, then dispatches on the stripped length:
3 (nibble-doubled via `digit * 17`, opaque), 6 (opaque), 8 (with alpha). -/
def from_hex (hex : List Char) : Option SolidColor :=
  let stripped := stripHash hex
  if ¬ (stripped.all isAsciiHexDigit) then none
  else if stripped.length = 3 then
    some ⟨(hexDigitVal (stripped.getD 0 '0') * 17 : ℚ) / 255,
      (hexDigitVal (stripped.getD 1 '0') * 17 : ℚ) / 255,
      (hexDigitVal (stripped.getD 2 '0') * 17 : ℚ) / 255, 1⟩
  else if stripped.length = 6 then
    some ⟨(hexPairVal stripped 0 : ℚ) / 255, (hexPairVal stripped 2 : ℚ) / 255,
      (hexPairVal stripped 4 : ℚ) / 255, 1⟩
  else if stripped.length = 8 then
    some ⟨(hexPairVal stripped 0 : ℚ) / 255, (hexPairVal stripped 2 : ℚ) / 255,
      (hexPairVal stripped 4 : ℚ) / 255, (hexPairVal stripped 6 : ℚ) / 255⟩
  else none

/-- Uppercase hex digit character for a nibble (`{:X}` formatting). -/
def hexDigitChar (m : ℕ) : Char :=
  if m < 10 then Char.ofNat (48 + m) else Char.ofNat (55 + m)

/-- Two uppercase hex digits for a byte (`{:02X}` formatting, byte < 256). -/
def byteHex (n : ℕ) : List Char :=
  [hexDigitChar (n / 16), hexDigitChar (n % 16)]

/-- `src/color.rs`: `SolidColor::to_hex`.  6 uppercase digits when alpha is
within 0.001 of 1.0 or the rounded RGB bytes are all zero, else 8 digits
with the rounded alpha byte appended. -/
def to_hex (c : SolidColor) : List Char :=
  let rgb := c.to_rgb
  let is_black := rgb.1 = 0 ∧ rgb.2.1 = 0 ∧ rgb.2.2 = 0
  if |c.a - 1| < 1/1000 ∨ is_black then
    byteHex rgb.1 ++ byteHex rgb.2.1 ++ byteHex rgb.2.2
  else
    byteHex rgb.1 ++ byteHex rgb.2.1 ++ byteHex rgb.2.2 ++
      byteHex (u8sat (rustRound (c.a * 255)))

/-- `src/color.rs`: `SolidColor::from_hsb`. -/
def from_hsb (h s b a : ℚ) : SolidColor :=
  let rgb := hsb_to_rgb h s b
  ⟨rgb.1, rgb.2.1, rgb.2.2, a⟩

/-- `src/color.rs`: `SolidColor::to_hsb`. -/
def to_hsb (c : SolidColor) : ℚ × ℚ × ℚ :=
  rgb_to_hsb c.r c.g c.b

/-- `src/color.rs`: `SolidColor::from_hsl`. -/
def from_hsl (h s l a : ℚ) : SolidColor :=
  let hsb := hsl_to_hsb h s l
  let rgb := hsb_to_rgb hsb.1 hsb.2.1 hsb.2.2
  ⟨rgb.1, rgb.2.1, rgb.2.2, a⟩

/-- `src/color.rs`: `SolidColor::from_rgba` — stores the raw floats, with no
clamping of any kind. -/
def from_rgba (r g b a : ℚ) : SolidColor :=
  ⟨r, g, b, a⟩

end SolidColor

/-! ## Synchronization engine (`src/color_editor.rs`)

Each `create_effect` closure of `color_editor` is embedded as a pure step
function from the signal values it reads to the signal values it writes.
Reactive signals become explicit arguments and results; a `Bool` result
records whether a conditional `set` call fired where a claim depends on it.
-/

/-- The working signals of `color_editor` that the HSB-centric effects touch:
hue/saturation/brightness/alpha plus the hex text buffer. -/
structure EditorState where
  h : ℚ
  s : ℚ
  b : ℚ
  a : ℚ
  hex : List Char
deriving DecidableEq, Repr

/-- `src/color_editor.rs` lines 65–83: the "HSB → color" effect.  Recomputes
the color from the working HSB+alpha; if any channel differs from the current
canonical by more than 0.001, publishes it and overwrites the hex text when
the hex string differs from the new formatting.  Returns the new canonical,
the new hex text, and whether `hex.set` fired. -/
def hsb_commit_step (h s b a : ℚ) (current : SolidColor) (hex : List Char) :
    SolidColor × List Char × Bool :=
  let new_color := SolidColor.from_hsb h s b a
  if |new_color.r - current.r| > 1/1000 ∨ |new_color.g - current.g| > 1/1000 ∨
      |new_color.b - current.b| > 1/1000 ∨ |new_color.a - current.a| > 1/1000 then
    let new_hex := new_color.to_hex
    if hex ≠ new_hex then (new_color, new_hex, true) else (new_color, hex, false)
  else (current, hex, false)

/-- `src/color_editor.rs` lines 86–121: the "external color → HSB" effect.
`prev` is the value memoized from the previous run (`None` on the first run).
Short-circuits: (a) all four channels within 0.001 of `prev`; (b) the RGB
re-derivation of the current working HSB triple and the working alpha are
within 0.005 of the new canonical (echo), in which case only the hex text is
reconciled.  Otherwise saturation/brightness/alpha are overwritten from the
canonical, hue only when both derived saturation and brightness exceed
0.001, and the hex text is reconciled. -/
def external_color_step (prev : Option SolidColor) (c : SolidColor)
    (st : EditorState) : EditorState :=
  let prev_match : Bool :=
    match prev with
    | some p => decide (|c.r - p.r| < 1/1000 ∧ |c.g - p.g| < 1/1000 ∧
        |c.b - p.b| < 1/1000 ∧ |c.a - p.a| < 1/1000)
    | none => false
  if prev_match then st
  else
    let e := hsb_to_rgb st.h st.s st.b
    if |e.1 - c.r| < 5/1000 ∧ |e.2.1 - c.g| < 5/1000 ∧ |e.2.2 - c.b| < 5/1000 ∧
        |st.a - c.a| < 5/1000 then
      { st with hex := if st.hex ≠ c.to_hex then c.to_hex else st.hex }
    else
      let hsb := c.to_hsb
      { h := if hsb.2.1 > 1/1000 ∧ hsb.2.2 > 1/1000 then hsb.1 else st.h
        s := hsb.2.1
        b := hsb.2.2
        a := c.a
        hex := if st.hex ≠ c.to_hex then c.to_hex else st.hex }

/-- `src/color_editor.rs` lines 124–151: the "hex → color" effect.  Parses
the hex text; on failure nothing happens.  On success, if RGB differs from
the canonical beyond 0.003 per channel or the parsed alpha differs from the
working alpha beyond 0.004, publishes a new canonical (with the parsed alpha
when it differed, else the working alpha) and re-derives the working HSB with
the hue-preservation rule; the working alpha is overwritten only when the
parsed alpha differed.  Returns (canonical, h, s, b, a). -/
def hex_commit_step (hx : List Char) (current : SolidColor)
    (h s b a : ℚ) : SolidColor × ℚ × ℚ × ℚ × ℚ :=
  match SolidColor.from_hex hx with
  | none => (current, h, s, b, a)
  | some c =>
    let rgb_changed := |c.r - current.r| > 3/1000 ∨ |c.g - current.g| > 3/1000 ∨
        |c.b - current.b| > 3/1000
    let alpha_changed := |c.a - a| > 4/1000
    if rgb_changed ∨ alpha_changed then
      let new_a := if alpha_changed then c.a else a
      let new_color := SolidColor.from_rgba c.r c.g c.b new_a
      let hsb := new_color.to_hsb
      (new_color,
        if hsb.2.1 > 1/1000 ∧ hsb.2.2 > 1/1000 then hsb.1 else h,
        hsb.2.1, hsb.2.2,
        if alpha_changed then new_a else a)
    else (current, h, s, b, a)

/-- `src/color_editor.rs` lines 207–226: the "RGB → HSB back-sync" effect.
If the `rgb_from_hsb` guard is set the commit is the engine's own echo and is
ignored.  Otherwise HSB is computed from the RGB triple; hue is overwritten
only when the new saturation and brightness are non-degenerate and the hue
moved by more than 0.002; saturation and brightness are each overwritten only
when they moved by more than 0.002.  Returns the new (h, s, b). -/
def rgb_back_sync (guard : Bool) (h s b rv gv bv : ℚ) : ℚ × ℚ × ℚ :=
  if guard then (h, s, b)
  else
    let n := rgb_to_hsb rv gv bv
    (if n.2.1 > 1/1000 ∧ n.2.2 > 1/1000 ∧ |h - n.1| > 2/1000 then n.1 else h,
      if |s - n.2.1| > 2/1000 then n.2.1 else s,
      if |b - n.2.2| > 2/1000 then n.2.2 else b)

/-! ## Brightness-slider raster cache (`src/brightness_slider.rs`) -/

/-- Rust float `as u8` truncating-saturating cast used for the cache color
key: `(ch * 255.0 + 0.5) as u8`. -/
def u8trunc (x : ℚ) : ℕ :=
  u8sat (ratTrunc x)

/-- `src/brightness_slider.rs` lines 25–41: `rasterize_brightness_gradient`.
The buffer is written px-major at offset `(py*width+px)*4`, so the resulting
bytes are `height` copies of one row of `width` RGBA8 pixels, where pixel
`px` interpolates the base color toward black by `t = px / max(width-1, 1)`.
-/
def rasterize_brightness_gradient (width height : ℕ) (r g b : ℚ) : List ℕ :=
  (List.range height).flatMap fun _ =>
    (List.range width).flatMap fun px =>
      let t : ℚ := (px : ℚ) / (max (width - 1) 1 : ℕ)
      [u8trunc ((1 - t) * r * 255 + 1/2), u8trunc ((1 - t) * g * 255 + 1/2),
        u8trunc ((1 - t) * b * 255 + 1/2), 255]

/-- The cache slot of a `BrightnessSlider`: the quantized color key, the
pixel dimensions key, the cached bitmap, and the identity token
(`grad_hash`, derived from `Blob::id()`).  `Blob::new` hands out a globally
fresh id; freshness relative to this single slot is modelled by a strictly
increasing counter, so a re-rasterization always produces a token different
from the stored one. -/
structure SliderCache where
  cached_color : ℕ × ℕ × ℕ
  cached_dims : ℕ × ℕ
  grad_img : Option (List ℕ)
  token : ℕ
deriving DecidableEq, Repr

/-- `src/brightness_slider.rs` lines 127–154: `ensure_gradient_image`.
Computes physical pixel dimensions from the widget size and scale, bails out
on a zero dimension, compares the (quantized color, dims) key with the
cached one, and either returns untouched (cache hit) or rasterizes once and
replaces the whole entry.  The second component counts rasterizations
performed by the call. -/
def ensure_gradient_image (st : SliderCache) (width height : ℚ)
    (base_r base_g base_b : ℚ) (scale : ℚ) : SliderCache × ℕ :=
  let s := max scale 1
  let pw := u32sat (rustRound (width * s))
  let ph := u32sat (rustRound (height * s))
  if pw = 0 ∨ ph = 0 then (st, 0)
  else
    let color_key := (u8trunc (base_r * 255 + 1/2), u8trunc (base_g * 255 + 1/2),
      u8trunc (base_b * 255 + 1/2))
    let dims := (pw, ph)
    if st.cached_dims = dims ∧ st.cached_color = color_key then (st, 0)
    else
      ({ cached_color := color_key, cached_dims := dims,
         grad_img := some (rasterize_brightness_gradient pw ph base_r base_g base_b),
         token := st.token + 1 }, 1)

/-! ## Theorems -/

/-- C3: a hex text commit whose text fails to parse (after stripping leading
`#` characters, the length is not 3, 6, or 8, or some character is not a hex
digit) leaves the canonical color and the hue, saturation, brightness and
alpha signals unchanged. -/
theorem hex_parse_failure_leaves_state (hx : List Char) (current : SolidColor)
    (h s b a : ℚ) :
    (SolidColor.from_hex hx = none ↔
      ¬((stripHash hx).all isAsciiHexDigit = true ∧
        ((stripHash hx).length = 3 ∨ (stripHash hx).length = 6 ∨
          (stripHash hx).length = 8))) ∧
    (SolidColor.from_hex hx = none →
      hex_commit_step hx current h s b a = (current, h, s, b, a)) := by
  constructor
  · simp only [SolidColor.from_hex]
    split_ifs with h1 h3 h6 h8 <;> simp_all
  · intro hfail
    simp [hex_commit_step, hfail]

/-- Witness for C3 at the unparsable text `"zz"`. -/
theorem hex_parse_failure_leaves_state_witness :
    hex_commit_step "zz".toList SolidColor.default 0 0 1 1 =
      (SolidColor.default, 0, 0, 1, 1) :=
  (hex_parse_failure_leaves_state "zz".toList SolidColor.default 0 0 1 1).2 rfl

/-- Unfolding of `rgb_back_sync` with the guard clear. -/
theorem rgb_back_sync_false (h s b rv gv bv : ℚ) :
    rgb_back_sync false h s b rv gv bv =
      (if (rgb_to_hsb rv gv bv).2.1 > 1/1000 ∧ (rgb_to_hsb rv gv bv).2.2 > 1/1000 ∧
          |h - (rgb_to_hsb rv gv bv).1| > 2/1000 then (rgb_to_hsb rv gv bv).1 else h,
        if |s - (rgb_to_hsb rv gv bv).2.1| > 2/1000 then (rgb_to_hsb rv gv bv).2.1 else s,
        if |b - (rgb_to_hsb rv gv bv).2.2| > 2/1000 then (rgb_to_hsb rv gv bv).2.2 else b) :=
  rfl

/-- C5: the RGB back-sync overwrites hue only when the saturation and
brightness computed by `rgb_to_hsb` both exceed 0.001, and an RGB edit whose
implied HSB triple matches the working triple within the 0.002 tolerance
overwrites none of hue, saturation, brightness. -/
theorem rgb_back_sync_hue_rule (guard : Bool) (h s b rv gv bv : ℚ) :
    ((rgb_back_sync guard h s b rv gv bv).1 ≠ h →
      (rgb_to_hsb rv gv bv).2.1 > 1/1000 ∧ (rgb_to_hsb rv gv bv).2.2 > 1/1000) ∧
    (|h - (rgb_to_hsb rv gv bv).1| ≤ 2/1000 ∧
        |s - (rgb_to_hsb rv gv bv).2.1| ≤ 2/1000 ∧
        |b - (rgb_to_hsb rv gv bv).2.2| ≤ 2/1000 →
      rgb_back_sync guard h s b rv gv bv = (h, s, b)) := by
  cases guard with
  | true => exact ⟨fun hne => absurd rfl hne, fun _ => rfl⟩
  | false =>
    rw [rgb_back_sync_false]
    constructor
    · intro hne
      by_cases hc : (rgb_to_hsb rv gv bv).2.1 > 1/1000 ∧
          (rgb_to_hsb rv gv bv).2.2 > 1/1000 ∧ |h - (rgb_to_hsb rv gv bv).1| > 2/1000
      · exact ⟨hc.1, hc.2.1⟩
      · rw [if_neg hc] at hne
        exact absurd rfl hne
    · rintro ⟨h1, h2, h3⟩
      have n1 : ¬((rgb_to_hsb rv gv bv).2.1 > 1/1000 ∧
          (rgb_to_hsb rv gv bv).2.2 > 1/1000 ∧ |h - (rgb_to_hsb rv gv bv).1| > 2/1000) := by
        rintro ⟨-, -, hgt⟩; linarith
      have n2 : ¬(|s - (rgb_to_hsb rv gv bv).2.1| > 2/1000) := by linarith
      have n3 : ¬(|b - (rgb_to_hsb rv gv bv).2.2| > 2/1000) := by linarith
      rw [if_neg n1, if_neg n2, if_neg n3]

/-- Witness for C5: an echo RGB commit (gray, matching the working triple)
changes nothing, and a genuine red commit that does move hue has
non-degenerate saturation and brightness. -/
theorem rgb_back_sync_hue_rule_witness :
    rgb_back_sync false 0 0 (1/2) (1/2) (1/2) (1/2) = (0, 0, 1/2) ∧
    ((rgb_to_hsb 1 0 0).2.1 > 1/1000 ∧ (rgb_to_hsb 1 0 0).2.2 > 1/1000) := by
  have hgray : rgb_to_hsb (1/2) (1/2) (1/2) = (0, 0, 1/2) := by
    norm_num [rgb_to_hsb]
  have hred : rgb_to_hsb 1 0 0 = (0, 1, 1) := by
    norm_num [rgb_to_hsb, remEuclid]
  have habs : |(1:ℚ)/2 - 0| = 1/2 := by norm_num
  refine ⟨(rgb_back_sync_hue_rule false 0 0 (1/2) (1/2) (1/2) (1/2)).2 ?_, ?_⟩
  · rw [hgray]
    norm_num
  · refine (rgb_back_sync_hue_rule false (1/2) 0 1 1 0 0).1 ?_
    have hres : rgb_back_sync false (1/2) 0 1 1 0 0 = (0, 1, 1) := by
      rw [rgb_back_sync_false, hred]
      rw [if_pos ⟨by norm_num, by norm_num,
        by rw [show |(1:ℚ)/2 - 0| = 1/2 by norm_num]; norm_num⟩]
      rw [if_pos (by rw [show |(0:ℚ) - 1| = 1 by norm_num]; norm_num)]
      rw [if_neg (by rw [show |(1:ℚ) - 1| = 0 by norm_num]; norm_num)]
    rw [hres]
    norm_num


/-- Unfolding of `external_color_step` with a previous canonical value. -/
theorem external_color_step_some (p c : SolidColor) (st : EditorState) :
    external_color_step (some p) c st =
      if |c.r - p.r| < 1/1000 ∧ |c.g - p.g| < 1/1000 ∧ |c.b - p.b| < 1/1000 ∧
          |c.a - p.a| < 1/1000 then st
      else if |(hsb_to_rgb st.h st.s st.b).1 - c.r| < 5/1000 ∧
          |(hsb_to_rgb st.h st.s st.b).2.1 - c.g| < 5/1000 ∧
          |(hsb_to_rgb st.h st.s st.b).2.2 - c.b| < 5/1000 ∧
          |st.a - c.a| < 5/1000 then
        { st with hex := if st.hex ≠ c.to_hex then c.to_hex else st.hex }
      else
        { h := if c.to_hsb.2.1 > 1/1000 ∧ c.to_hsb.2.2 > 1/1000 then c.to_hsb.1 else st.h
          s := c.to_hsb.2.1
          b := c.to_hsb.2.2
          a := c.a
          hex := if st.hex ≠ c.to_hex then c.to_hex else st.hex } := by
  simp only [external_color_step, decide_eq_true_eq]

/-- C1: when the canonical changes to a value neither within 0.001 per
channel of the previous canonical nor within 0.005 per channel of the RGB
re-derivation of the working HSB triple, the saturation, brightness and
alpha signals are overwritten from the new canonical unconditionally, and
the hue signal is overwritten exactly when both derived saturation and
brightness exceed 0.001, keeping its previous value otherwise. -/
theorem external_color_overwrite_rule (p c : SolidColor) (st : EditorState)
    (hprev : ¬(|c.r - p.r| < 1/1000 ∧ |c.g - p.g| < 1/1000 ∧
      |c.b - p.b| < 1/1000 ∧ |c.a - p.a| < 1/1000))
    (hecho : ¬(|(hsb_to_rgb st.h st.s st.b).1 - c.r| < 5/1000 ∧
      |(hsb_to_rgb st.h st.s st.b).2.1 - c.g| < 5/1000 ∧
      |(hsb_to_rgb st.h st.s st.b).2.2 - c.b| < 5/1000)) :
    (external_color_step (some p) c st).s = c.to_hsb.2.1 ∧
    (external_color_step (some p) c st).b = c.to_hsb.2.2 ∧
    (external_color_step (some p) c st).a = c.a ∧
    (c.to_hsb.2.1 > 1/1000 ∧ c.to_hsb.2.2 > 1/1000 →
      (external_color_step (some p) c st).h = c.to_hsb.1) ∧
    (¬(c.to_hsb.2.1 > 1/1000 ∧ c.to_hsb.2.2 > 1/1000) →
      (external_color_step (some p) c st).h = st.h) := by
  rw [external_color_step_some, if_neg hprev,
    if_neg (fun hl => hecho ⟨hl.1, hl.2.1, hl.2.2.1⟩)]
  refine ⟨rfl, rfl, rfl, ?_, ?_⟩
  · intro hc
    show (if c.to_hsb.2.1 > 1/1000 ∧ c.to_hsb.2.2 > 1/1000 then c.to_hsb.1
      else st.h) = c.to_hsb.1
    rw [if_pos hc]
  · intro hc
    show (if c.to_hsb.2.1 > 1/1000 ∧ c.to_hsb.2.2 > 1/1000 then c.to_hsb.1
      else st.h) = st.h
    rw [if_neg hc]

/-- Witness for C1: a white previous canonical replaced by blue, with a
white working triple; saturation, brightness, alpha and hue all get the
blue-derived values. -/
theorem external_color_overwrite_rule_witness :
    (external_color_step (some ⟨1, 1, 1, 1⟩) ⟨0, 0, 1, 1⟩
      ⟨0, 0, 1, 1, "FFFFFF".toList⟩).s = 1 ∧
    (external_color_step (some ⟨1, 1, 1, 1⟩) ⟨0, 0, 1, 1⟩
      ⟨0, 0, 1, 1, "FFFFFF".toList⟩).h = 2/3 := by
  have habs1 : |(0:ℚ) - 1| = 1 := by norm_num
  have hrgb : hsb_to_rgb 0 0 1 = (1, 1, 1) := by norm_num [hsb_to_rgb]
  have hhsb : SolidColor.to_hsb ⟨0, 0, 1, 1⟩ = (2/3, 1, 1) := by
    norm_num [SolidColor.to_hsb, rgb_to_hsb]
  have hmain := external_color_overwrite_rule ⟨1, 1, 1, 1⟩ ⟨0, 0, 1, 1⟩
    ⟨0, 0, 1, 1, "FFFFFF".toList⟩
    (by rintro ⟨h1, -⟩; rw [habs1] at h1; norm_num at h1)
    (by
      rintro ⟨h1, -⟩
      rw [show (⟨0, 0, 1, 1, "FFFFFF".toList⟩ : EditorState).h = 0 from rfl,
        show (⟨0, 0, 1, 1, "FFFFFF".toList⟩ : EditorState).s = 0 from rfl,
        show (⟨0, 0, 1, 1, "FFFFFF".toList⟩ : EditorState).b = 1 from rfl,
        hrgb, show ((1:ℚ), (1:ℚ), (1:ℚ)).1 = 1 from rfl] at h1
      rw [show |(1:ℚ) - 0| = 1 by norm_num] at h1
      norm_num at h1)
  refine ⟨?_, ?_⟩
  · rw [hmain.1, hhsb]
  · rw [hmain.2.2.2.1 (by rw [hhsb]; norm_num), hhsb]

/-- Unfolding of `hsb_commit_step`. -/
theorem hsb_commit_step_eq (h s b a : ℚ) (cur : SolidColor) (hex : List Char) :
    hsb_commit_step h s b a cur hex =
      if |(SolidColor.from_hsb h s b a).r - cur.r| > 1/1000 ∨
          |(SolidColor.from_hsb h s b a).g - cur.g| > 1/1000 ∨
          |(SolidColor.from_hsb h s b a).b - cur.b| > 1/1000 ∨
          |(SolidColor.from_hsb h s b a).a - cur.a| > 1/1000 then
        if hex ≠ (SolidColor.from_hsb h s b a).to_hex then
          (SolidColor.from_hsb h s b a, (SolidColor.from_hsb h s b a).to_hex, true)
        else (SolidColor.from_hsb h s b a, hex, false)
      else (cur, hex, false) :=
  rfl

/-- C2 counterexample: an HSB commit of pure red against a gray canonical,
with the hex text `"ff0000"`.  The parsed value of the hex text equals the
new canonical exactly, yet `hex.set` fires, because the code compares the
*string* against the freshly formatted `"FF0000"`. -/
theorem hsb_commit_hex_string_compare_cex :
    (hsb_commit_step 0 1 1 1 SolidColor.default "ff0000".toList).2.2 = true ∧
    SolidColor.from_hex "ff0000".toList =
      some (hsb_commit_step 0 1 1 1 SolidColor.default "ff0000".toList).1 := by
  have hrgb : hsb_to_rgb 0 1 1 = (1, 0, 0) := by
    norm_num [hsb_to_rgb, rustRem, ratTrunc, u32sat]
  have hcol : SolidColor.from_hsb 0 1 1 1 = ⟨1, 0, 0, 1⟩ := by
    simp [SolidColor.from_hsb, hrgb]
  have hparse : SolidColor.from_hex "ff0000".toList = some ⟨1, 0, 0, 1⟩ := by
    simp only [SolidColor.from_hex]
    rw [if_neg (by decide), if_neg (by decide), if_pos (by decide)]
    rw [show hexPairVal (stripHash "ff0000".toList) 0 = 255 from by decide,
      show hexPairVal (stripHash "ff0000".toList) 2 = 0 from by decide,
      show hexPairVal (stripHash "ff0000".toList) 4 = 0 from by decide]
    norm_num
  have hhex : (⟨1, 0, 0, 1⟩ : SolidColor).to_hex = "FF0000".toList := by
    have h255 : SolidColor.to_rgb ⟨1, 0, 0, 1⟩ = (255, 0, 0) := by
      norm_num [SolidColor.to_rgb, rustRound, u8sat]
      decide
    simp only [SolidColor.to_hex, h255]
    rw [if_pos (Or.inl (by rw [show |(1:ℚ) - 1| = 0 by norm_num]; norm_num))]
    decide
  have hstep : hsb_commit_step 0 1 1 1 SolidColor.default "ff0000".toList =
      (⟨1, 0, 0, 1⟩, (⟨1, 0, 0, 1⟩ : SolidColor).to_hex, true) := by
    rw [hsb_commit_step_eq, hcol]
    rw [if_pos (Or.inl (by
      rw [show (⟨1, 0, 0, 1⟩ : SolidColor).r = 1 from rfl,
        show SolidColor.default.r = 1/2 from rfl,
        show |(1:ℚ) - 1/2| = 1/2 by norm_num]
      norm_num))]
    rw [if_pos]
    rw [hhex]
    decide
  rw [hstep, hparse]
  exact ⟨rfl, rfl⟩

/-- C2 as amended: when an HSB commit publishes a new canonical (some
channel moved by more than 0.001), the hex text is overwritten exactly when
its string form differs from the formatted hex of the new canonical — the
parsed value of the hex text plays no role; when nothing is published the
hex text is untouched. -/
theorem hsb_commit_hex_overwrite_rule (h s b a : ℚ) (cur : SolidColor)
    (hex : List Char) :
    ((|(SolidColor.from_hsb h s b a).r - cur.r| > 1/1000 ∨
        |(SolidColor.from_hsb h s b a).g - cur.g| > 1/1000 ∨
        |(SolidColor.from_hsb h s b a).b - cur.b| > 1/1000 ∨
        |(SolidColor.from_hsb h s b a).a - cur.a| > 1/1000) →
      ((hsb_commit_step h s b a cur hex).2.2 = true ↔
        hex ≠ (SolidColor.from_hsb h s b a).to_hex)) ∧
    (¬(|(SolidColor.from_hsb h s b a).r - cur.r| > 1/1000 ∨
        |(SolidColor.from_hsb h s b a).g - cur.g| > 1/1000 ∨
        |(SolidColor.from_hsb h s b a).b - cur.b| > 1/1000 ∨
        |(SolidColor.from_hsb h s b a).a - cur.a| > 1/1000) →
      (hsb_commit_step h s b a cur hex).2.2 = false ∧
        (hsb_commit_step h s b a cur hex).2.1 = hex) := by
  rw [hsb_commit_step_eq]
  constructor
  · intro hc
    rw [if_pos hc]
    by_cases hx : hex ≠ (SolidColor.from_hsb h s b a).to_hex
    · rw [if_pos hx]
      simp [hx]
    · rw [if_neg hx]
      simp [hx]
  · intro hc
    rw [if_neg hc]
    exact ⟨rfl, rfl⟩

/-- Witness for the amended C2: an HSB commit that reproduces the gray
canonical publishes nothing and leaves the hex text alone. -/
theorem hsb_commit_hex_overwrite_rule_witness :
    (hsb_commit_step 0 0 (1/2) 1 SolidColor.default "808080".toList).2.2 = false ∧
    (hsb_commit_step 0 0 (1/2) 1 SolidColor.default "808080".toList).2.1 =
      "808080".toList := by
  have hgray : hsb_to_rgb 0 0 (1/2) = (1/2, 1/2, 1/2) := by
    unfold hsb_to_rgb
    rw [if_pos rfl]
  have hcol : SolidColor.from_hsb 0 0 (1/2) 1 = ⟨1/2, 1/2, 1/2, 1⟩ := by
    simp only [SolidColor.from_hsb, hgray]
  refine (hsb_commit_hex_overwrite_rule 0 0 (1/2) 1 SolidColor.default
    "808080".toList).2 ?_
  rw [hcol]
  rw [show SolidColor.default = ⟨1/2, 1/2, 1/2, 1⟩ from rfl]
  norm_num

/-- Unfolding of `hex_commit_step` on a successful parse. -/
theorem hex_commit_step_some (hx : List Char) (cur : SolidColor)
    (h s b a : ℚ) (c : SolidColor) (hp : SolidColor.from_hex hx = some c) :
    hex_commit_step hx cur h s b a =
      if (|c.r - cur.r| > 3/1000 ∨ |c.g - cur.g| > 3/1000 ∨
          |c.b - cur.b| > 3/1000) ∨ |c.a - a| > 4/1000 then
        (SolidColor.from_rgba c.r c.g c.b (if |c.a - a| > 4/1000 then c.a else a),
          (if (SolidColor.from_rgba c.r c.g c.b
                (if |c.a - a| > 4/1000 then c.a else a)).to_hsb.2.1 > 1/1000 ∧
              (SolidColor.from_rgba c.r c.g c.b
                (if |c.a - a| > 4/1000 then c.a else a)).to_hsb.2.2 > 1/1000 then
            (SolidColor.from_rgba c.r c.g c.b
              (if |c.a - a| > 4/1000 then c.a else a)).to_hsb.1
          else h),
          (SolidColor.from_rgba c.r c.g c.b
            (if |c.a - a| > 4/1000 then c.a else a)).to_hsb.2.1,
          (SolidColor.from_rgba c.r c.g c.b
            (if |c.a - a| > 4/1000 then c.a else a)).to_hsb.2.2,
          (if |c.a - a| > 4/1000 then (if |c.a - a| > 4/1000 then c.a else a) else a))
      else (cur, h, s, b, a) := by
  unfold hex_commit_step
  rw [hp]

/-- C4 counterexample: the canonical is red at alpha one half, the working
alpha is one half, and the 6-digit hex `"FF0000"` is committed.  A 6-digit
string carries no alpha of its own, yet the working alpha signal is
overwritten with the parse's implicit 1.0. -/
theorem hex_commit_six_digit_alpha_cex :
    (hex_commit_step "FF0000".toList (SolidColor.from_rgba 1 0 0 (1/2))
      0 1 1 (1/2)).2.2.2.2 = 1 ∧
    (stripHash "FF0000".toList).length = 6 ∧ ((1:ℚ)/2 ≠ 1) := by
  have hparse : SolidColor.from_hex "FF0000".toList = some ⟨1, 0, 0, 1⟩ := by
    simp only [SolidColor.from_hex]
    rw [if_neg (by decide), if_neg (by decide), if_pos (by decide)]
    rw [show hexPairVal (stripHash "FF0000".toList) 0 = 255 from by decide,
      show hexPairVal (stripHash "FF0000".toList) 2 = 0 from by decide,
      show hexPairVal (stripHash "FF0000".toList) 4 = 0 from by decide]
    norm_num
  have halpha : |(1:ℚ) - 1/2| > 4/1000 := by
    rw [show |(1:ℚ) - 1/2| = 1/2 by norm_num]; norm_num
  refine ⟨?_, by decide, by norm_num⟩
  rw [hex_commit_step_some "FF0000".toList (SolidColor.from_rgba 1 0 0 (1/2))
    0 1 1 (1/2) ⟨1, 0, 0, 1⟩ hparse]
  rw [if_pos (Or.inr halpha)]
  simp only [if_pos halpha]

/-- A 3- or 6-digit hex string parses with implicit alpha 1.0. -/
theorem from_hex_alpha_one (hx : List Char) (c : SolidColor)
    (hp : SolidColor.from_hex hx = some c)
    (hlen : (stripHash hx).length = 3 ∨ (stripHash hx).length = 6) :
    c.a = 1 := by
  simp only [SolidColor.from_hex] at hp
  by_cases hall : (stripHash hx).all isAsciiHexDigit = true
  · rw [if_neg (by simpa using hall)] at hp
    rcases hlen with hl | hl
    · rw [if_pos hl] at hp
      cases Option.some.inj hp
      rfl
    · rw [if_neg (by rw [hl]; norm_num), if_pos hl] at hp
      cases Option.some.inj hp
      rfl
  · rw [if_pos (by simpa using hall)] at hp
    exact Option.noConfusion hp

/-- C4 as amended: on a successful hex commit that republishes the
canonical, the published and working alpha both become the parsed alpha when
it differs from the working alpha by more than 0.004, and keep the working
alpha otherwise; 3- and 6-digit hex strings always parse with alpha 1.0, so
a 6-digit commit overwrites a working alpha that is more than 0.004 away
from 1.0. -/
theorem hex_commit_alpha_rule (hx : List Char) (cur : SolidColor)
    (h s b a : ℚ) (c : SolidColor) (hp : SolidColor.from_hex hx = some c)
    (hch : (|c.r - cur.r| > 3/1000 ∨ |c.g - cur.g| > 3/1000 ∨
      |c.b - cur.b| > 3/1000) ∨ |c.a - a| > 4/1000) :
    (hex_commit_step hx cur h s b a).1.a =
      (if |c.a - a| > 4/1000 then c.a else a) ∧
    (hex_commit_step hx cur h s b a).2.2.2.2 =
      (if |c.a - a| > 4/1000 then c.a else a) ∧
    (((stripHash hx).length = 3 ∨ (stripHash hx).length = 6) → c.a = 1) := by
  rw [hex_commit_step_some hx cur h s b a c hp, if_pos hch]
  refine ⟨rfl, ?_, ?_⟩
  · by_cases hα : |c.a - a| > 4/1000
    · simp only [if_pos hα]
    · simp only [if_neg hα]
  · exact fun hlen => from_hex_alpha_one hx c hp hlen

/-- Witness for the amended C4: committing the 8-digit `"FF000080"` over a
gray canonical with working alpha 1 adopts the parsed alpha 128/255. -/
theorem hex_commit_alpha_rule_witness :
    (hex_commit_step "FF000080".toList SolidColor.default 0 0 1 1).1.a =
      128/255 := by
  have hparse : SolidColor.from_hex "FF000080".toList =
      some ⟨1, 0, 0, 128/255⟩ := by
    simp only [SolidColor.from_hex]
    rw [if_neg (by decide), if_neg (by decide), if_neg (by decide),
      if_pos (by decide)]
    rw [show hexPairVal (stripHash "FF000080".toList) 0 = 255 from by decide,
      show hexPairVal (stripHash "FF000080".toList) 2 = 0 from by decide,
      show hexPairVal (stripHash "FF000080".toList) 4 = 0 from by decide,
      show hexPairVal (stripHash "FF000080".toList) 6 = 128 from by decide]
    norm_num
  have halpha : |(128:ℚ)/255 - 1| > 4/1000 := by
    rw [show |(128:ℚ)/255 - 1| = 127/255 by norm_num]; norm_num
  have hmain := hex_commit_alpha_rule "FF000080".toList SolidColor.default
    0 0 1 1 ⟨1, 0, 0, 128/255⟩ hparse (Or.inr halpha)
  rw [hmain.1, if_pos halpha]

/-- A saturating `u8` cast never exceeds 255. -/
theorem u8sat_le (z : ℤ) : u8sat z ≤ 255 := by
  unfold u8sat
  split_ifs <;> omega

/-- A nibble below 16 formats as an uppercase hex digit. -/
theorem hexDigitChar_upper (m : ℕ) (hm : m < 16) :
    isUpperHexDigit (SolidColor.hexDigitChar m) = true := by
  interval_cases m <;> decide

/-- `byteHex` always yields two characters. -/
theorem byteHex_length (n : ℕ) : (SolidColor.byteHex n).length = 2 := rfl

/-- `byteHex` of a byte yields uppercase hex digits. -/
theorem byteHex_upper (n : ℕ) (hn : n ≤ 255) :
    (SolidColor.byteHex n).all isUpperHexDigit = true := by
  have h1 : n / 16 < 16 := by omega
  have h2 : n % 16 < 16 := Nat.mod_lt _ (by norm_num)
  simp [SolidColor.byteHex, hexDigitChar_upper _ h1, hexDigitChar_upper _ h2]

/-- Unfolding of `to_hex`. -/
theorem to_hex_eq (c : SolidColor) :
    SolidColor.to_hex c =
      if |c.a - 1| < 1/1000 ∨
          (c.to_rgb.1 = 0 ∧ c.to_rgb.2.1 = 0 ∧ c.to_rgb.2.2 = 0) then
        SolidColor.byteHex c.to_rgb.1 ++ SolidColor.byteHex c.to_rgb.2.1 ++
          SolidColor.byteHex c.to_rgb.2.2
      else
        SolidColor.byteHex c.to_rgb.1 ++ SolidColor.byteHex c.to_rgb.2.1 ++
          SolidColor.byteHex c.to_rgb.2.2 ++
          SolidColor.byteHex (u8sat (rustRound (c.a * 255))) :=
  rfl

/-- Each rounded RGB byte of a color is at most 255. -/
theorem to_rgb_le (c : SolidColor) :
    c.to_rgb.1 ≤ 255 ∧ c.to_rgb.2.1 ≤ 255 ∧ c.to_rgb.2.2 ≤ 255 :=
  ⟨u8sat_le _, u8sat_le _, u8sat_le _⟩

/-- C7: `to_hex` yields exactly 6 uppercase hex digits when alpha is within
0.001 of 1.0 or all three RGB bytes round to zero, and otherwise 8 uppercase
hex digits ending in the rounded alpha byte; every color whose RGB bytes all
round to zero formats as 6 digits regardless of its alpha. -/
theorem to_hex_format (c : SolidColor) :
    ((|c.a - 1| < 1/1000 ∨
        (c.to_rgb.1 = 0 ∧ c.to_rgb.2.1 = 0 ∧ c.to_rgb.2.2 = 0)) →
      (SolidColor.to_hex c).length = 6 ∧
        (SolidColor.to_hex c).all isUpperHexDigit = true) ∧
    (¬(|c.a - 1| < 1/1000 ∨
        (c.to_rgb.1 = 0 ∧ c.to_rgb.2.1 = 0 ∧ c.to_rgb.2.2 = 0)) →
      (SolidColor.to_hex c).length = 8 ∧
        (SolidColor.to_hex c).all isUpperHexDigit = true ∧
        SolidColor.to_hex c =
          SolidColor.byteHex c.to_rgb.1 ++ SolidColor.byteHex c.to_rgb.2.1 ++
            SolidColor.byteHex c.to_rgb.2.2 ++
            SolidColor.byteHex (u8sat (rustRound (c.a * 255)))) ∧
    ((c.to_rgb.1 = 0 ∧ c.to_rgb.2.1 = 0 ∧ c.to_rgb.2.2 = 0) →
      (SolidColor.to_hex c).length = 6) := by
  obtain ⟨hr, hg, hb⟩ := to_rgb_le c
  refine ⟨?_, ?_, ?_⟩
  · intro hc
    rw [to_hex_eq, if_pos hc]
    constructor
    · simp [byteHex_length]
    · simp [List.all_append, byteHex_upper _ hr, byteHex_upper _ hg,
        byteHex_upper _ hb]
  · intro hc
    rw [to_hex_eq, if_neg hc]
    refine ⟨by simp [byteHex_length], ?_, rfl⟩
    simp [List.all_append, byteHex_upper _ hr, byteHex_upper _ hg,
      byteHex_upper _ hb, byteHex_upper _ (u8sat_le (rustRound (c.a * 255)))]
  · intro hc
    rw [to_hex_eq, if_pos (Or.inr hc)]
    simp [byteHex_length]

/-- Witness for C7: black with alpha one half formats as 6 digits (the
black rule wins over the non-opaque alpha), while red with alpha one half
formats as 8 digits. -/
theorem to_hex_format_witness :
    (SolidColor.to_hex ⟨0, 0, 0, 1/2⟩).length = 6 ∧
    (SolidColor.to_hex ⟨1, 0, 0, 1/2⟩).length = 8 := by
  have hblack : SolidColor.to_rgb ⟨0, 0, 0, 1/2⟩ = (0, 0, 0) := by
    norm_num [SolidColor.to_rgb, rustRound, u8sat]
    try decide
  have hred : SolidColor.to_rgb ⟨1, 0, 0, 1/2⟩ = (255, 0, 0) := by
    norm_num [SolidColor.to_rgb, rustRound, u8sat]
    try decide
  constructor
  · exact (to_hex_format ⟨0, 0, 0, 1/2⟩).2.2 (by rw [hblack]; exact ⟨rfl, rfl, rfl⟩)
  · refine ((to_hex_format ⟨1, 0, 0, 1/2⟩).2.1 ?_).1
    rintro (h1 | h2)
    · rw [show (⟨1, 0, 0, 1/2⟩ : SolidColor).a = 1/2 from rfl,
        show |(1:ℚ)/2 - 1| = 1/2 by norm_num] at h1
      norm_num at h1
    · rw [hred] at h2
      exact absurd h2.1 (by norm_num)

/-- ASCII uppercasing sends a hex digit to an uppercase hex digit. -/
theorem asciiToUpper_hex (c : Char) (hc : isAsciiHexDigit c = true) :
    isUpperHexDigit (asciiToUpper c) = true := by
  simp only [isAsciiHexDigit, decide_eq_true_eq] at hc
  unfold asciiToUpper
  rcases hc with h | h | h
  · rw [if_neg (by omega)]
    simp only [isUpperHexDigit, decide_eq_true_eq]
    omega
  · rw [if_pos (by omega)]
    generalize hm : c.toNat - 32 = m
    have h1 : 65 ≤ m := by omega
    have h2 : m ≤ 70 := by omega
    interval_cases m <;> decide
  · rw [if_neg (by omega)]
    simp only [isUpperHexDigit, decide_eq_true_eq]
    omega

/-- Uppercasing an all-hexdigit string yields all uppercase hex digits. -/
theorem upperStr_all_upper (l : List Char) (hl : l.all isAsciiHexDigit = true) :
    (upperStr l).all isUpperHexDigit = true := by
  induction l with
  | nil => rfl
  | cons x xs ih =>
    simp only [List.all_cons, Bool.and_eq_true] at hl
    simp only [upperStr, List.map_cons, List.all_cons, Bool.and_eq_true]
    exact ⟨asciiToUpper_hex x hl.1, ih hl.2⟩

/-- C10: `normalize_hex` is total and always returns 8 uppercase hex digits;
a valid 3-digit input (after stripping `#`) is nibble-doubled and uppercased
with `FF` appended, a valid 6-digit input is uppercased with `FF` appended,
a valid 8-digit input is uppercased, and everything else becomes the opaque
gray `808080FF`. -/
theorem normalize_hex_format (hex : List Char) :
    (normalize_hex hex).length = 8 ∧
    (normalize_hex hex).all isUpperHexDigit = true ∧
    ((stripHash hex).all isAsciiHexDigit = true → (stripHash hex).length = 3 →
      normalize_hex hex =
        upperStr ((stripHash hex).flatMap fun c => [c, c]) ++ ['F', 'F']) ∧
    ((stripHash hex).all isAsciiHexDigit = true → (stripHash hex).length = 6 →
      normalize_hex hex = upperStr (stripHash hex) ++ ['F', 'F']) ∧
    ((stripHash hex).all isAsciiHexDigit = true → (stripHash hex).length = 8 →
      normalize_hex hex = upperStr (stripHash hex)) ∧
    (¬((stripHash hex).all isAsciiHexDigit = true ∧
        ((stripHash hex).length = 3 ∨ (stripHash hex).length = 6 ∨
          (stripHash hex).length = 8)) →
      normalize_hex hex = "808080FF".toList) := by
  by_cases hall : (stripHash hex).all isAsciiHexDigit = true
  · by_cases h3 : (stripHash hex).length = 3
    · obtain ⟨x, y, z, hxyz⟩ := List.length_eq_three.mp h3
      have hdig : isAsciiHexDigit x = true ∧ isAsciiHexDigit y = true ∧
          isAsciiHexDigit z = true := by
        rw [hxyz] at hall
        simpa using hall
      have hnf : normalize_hex hex =
          upperStr ((stripHash hex).flatMap fun c => [c, c]) ++ ['F', 'F'] := by
        unfold normalize_hex
        rw [if_neg (by simp [hall]), if_pos h3]
        rw [hxyz]
        simp only [upperStr, List.map_append]
        rfl
      refine ⟨?_, ?_, fun _ _ => hnf, fun _ h6 => absurd h6 (by omega),
        fun _ h8 => absurd h8 (by omega),
        fun hbad => absurd ⟨hall, Or.inl h3⟩ hbad⟩
      · rw [hnf, hxyz]
        rfl
      · have hF : isUpperHexDigit 'F' = true := by decide
        rw [hnf, hxyz]
        simp [upperStr, asciiToUpper_hex x hdig.1, asciiToUpper_hex y hdig.2.1,
          asciiToUpper_hex z hdig.2.2, hF]
    · by_cases h6 : (stripHash hex).length = 6
      · have hnf : normalize_hex hex = upperStr (stripHash hex) ++ ['F', 'F'] := by
          unfold normalize_hex
          rw [if_neg (by simp [hall]), if_neg h3, if_pos h6]
          rfl
        refine ⟨?_, ?_, fun _ hl => absurd hl (by omega), fun _ _ => hnf,
          fun _ h8 => absurd h8 (by omega),
          fun hbad => absurd ⟨hall, Or.inr (Or.inl h6)⟩ hbad⟩
        · rw [hnf]
          simp [upperStr, h6]
        · rw [hnf]
          simp only [List.all_append, Bool.and_eq_true]
          exact ⟨upperStr_all_upper _ hall, by decide⟩
      · by_cases h8 : (stripHash hex).length = 8
        · have hnf : normalize_hex hex = upperStr (stripHash hex) := by
            unfold normalize_hex
            rw [if_neg (by simp [hall]), if_neg h3, if_neg h6, if_pos h8]
          refine ⟨?_, ?_, fun _ hl => absurd hl (by omega),
            fun _ hl => absurd hl (by omega),
            fun _ _ => hnf, fun hbad => absurd ⟨hall, Or.inr (Or.inr h8)⟩ hbad⟩
          · rw [hnf]
            simp [upperStr, h8]
          · rw [hnf]
            exact upperStr_all_upper _ hall
        · have hnf : normalize_hex hex = "808080FF".toList := by
            unfold normalize_hex
            rw [if_neg (by simp [hall]), if_neg h3, if_neg h6, if_neg h8]
          exact ⟨by rw [hnf]; rfl, by rw [hnf]; decide,
            fun _ hl => absurd hl h3, fun _ hl => absurd hl h6,
            fun _ hl => absurd hl h8, fun _ => hnf⟩
  · have hnf : normalize_hex hex = "808080FF".toList := by
      unfold normalize_hex
      rw [if_pos (by simpa using hall)]
    exact ⟨by rw [hnf]; rfl, by rw [hnf]; decide,
      fun hl => absurd hl hall, fun hl => absurd hl hall,
      fun hl => absurd hl hall, fun _ => hnf⟩

/-- Witness for C10: the shorthand `"#fff"` expands to the doubled form with
`FF` appended, and the invalid `"xyz"` collapses to the opaque gray. -/
theorem normalize_hex_format_witness :
    normalize_hex "#fff".toList =
      upperStr ((stripHash "#fff".toList).flatMap fun c => [c, c]) ++ ['F', 'F'] ∧
    normalize_hex "xyz".toList = "808080FF".toList :=
  ⟨(normalize_hex_format "#fff".toList).2.2.1 (by decide) (by decide),
    (normalize_hex_format "xyz".toList).2.2.2.2.2 (by decide)⟩

/-- Unfolding of `ensure_gradient_image`. -/
theorem ensure_gradient_image_eq (st : SliderCache) (width height r g b scale : ℚ) :
    ensure_gradient_image st width height r g b scale =
      if u32sat (rustRound (width * max scale 1)) = 0 ∨
          u32sat (rustRound (height * max scale 1)) = 0 then (st, 0)
      else if st.cached_dims = (u32sat (rustRound (width * max scale 1)),
            u32sat (rustRound (height * max scale 1))) ∧
          st.cached_color = (u8trunc (r * 255 + 1/2), u8trunc (g * 255 + 1/2),
            u8trunc (b * 255 + 1/2)) then (st, 0)
      else
        ({ cached_color := (u8trunc (r * 255 + 1/2), u8trunc (g * 255 + 1/2),
              u8trunc (b * 255 + 1/2)),
           cached_dims := (u32sat (rustRound (width * max scale 1)),
              u32sat (rustRound (height * max scale 1))),
           grad_img := some (rasterize_brightness_gradient
              (u32sat (rustRound (width * max scale 1)))
              (u32sat (rustRound (height * max scale 1))) r g b),
           token := st.token + 1 }, 1) :=
  rfl

/-- C9: with nonzero physical pixel dimensions, a repeated request with an
unchanged key (quantized base-color bytes, pixel width, pixel height) leaves
the whole cache slot — bitmap and identity token included — untouched and
performs no rasterization, while any key change performs exactly one
rasterization, replaces the single entry wholesale with the newly computed
bitmap, and yields a fresh identity token. -/
theorem ensure_gradient_cache_rule (st : SliderCache)
    (width height r g b scale : ℚ)
    (hpw : u32sat (rustRound (width * max scale 1)) ≠ 0)
    (hph : u32sat (rustRound (height * max scale 1)) ≠ 0) :
    (st.cached_dims = (u32sat (rustRound (width * max scale 1)),
          u32sat (rustRound (height * max scale 1))) ∧
        st.cached_color = (u8trunc (r * 255 + 1/2), u8trunc (g * 255 + 1/2),
          u8trunc (b * 255 + 1/2)) →
      ensure_gradient_image st width height r g b scale = (st, 0)) ∧
    (¬(st.cached_dims = (u32sat (rustRound (width * max scale 1)),
          u32sat (rustRound (height * max scale 1))) ∧
        st.cached_color = (u8trunc (r * 255 + 1/2), u8trunc (g * 255 + 1/2),
          u8trunc (b * 255 + 1/2))) →
      ensure_gradient_image st width height r g b scale =
        ({ cached_color := (u8trunc (r * 255 + 1/2), u8trunc (g * 255 + 1/2),
              u8trunc (b * 255 + 1/2)),
           cached_dims := (u32sat (rustRound (width * max scale 1)),
              u32sat (rustRound (height * max scale 1))),
           grad_img := some (rasterize_brightness_gradient
              (u32sat (rustRound (width * max scale 1)))
              (u32sat (rustRound (height * max scale 1))) r g b),
           token := st.token + 1 }, 1) ∧
        st.token + 1 ≠ st.token) := by
  rw [ensure_gradient_image_eq,
    if_neg (by rintro (hz | hz); exacts [hpw hz, hph hz])]
  constructor
  · intro hk
    rw [if_pos hk]
  · intro hk
    rw [if_neg hk]
    exact ⟨rfl, Nat.succ_ne_self st.token⟩

/-- Witness for C9: a 2×1 widget at scale 1 with gray base.  The state that
already caches key ((128,128,128),(2,1)) is untouched with no rasterization;
from an empty cache the same request rasterizes once and bumps the token. -/
theorem ensure_gradient_cache_rule_witness :
    ensure_gradient_image ⟨(128, 128, 128), (2, 1), some [], 7⟩
      2 1 (1/2) (1/2) (1/2) 1 = (⟨(128, 128, 128), (2, 1), some [], 7⟩, 0) ∧
    ensure_gradient_image ⟨(0, 0, 0), (0, 0), none, 7⟩ 2 1 (1/2) (1/2) (1/2) 1 =
      ({ cached_color := (128, 128, 128), cached_dims := (2, 1),
         grad_img := some (rasterize_brightness_gradient 2 1 (1/2) (1/2) (1/2)),
         token := 8 }, 1) := by
  have hw : u32sat (rustRound ((2:ℚ) * max 1 1)) = 2 := by
    norm_num [rustRound, u32sat]
    try decide
  have hh : u32sat (rustRound ((1:ℚ) * max 1 1)) = 1 := by
    norm_num [rustRound, u32sat]
    try decide
  have hc : u8trunc ((1:ℚ)/2 * 255 + 1/2) = 128 := by
    norm_num [u8trunc, ratTrunc, u8sat]
    try decide
  constructor
  · have := (ensure_gradient_cache_rule ⟨(128, 128, 128), (2, 1), some [], 7⟩
      2 1 (1/2) (1/2) (1/2) 1 (by rw [hw]; norm_num) (by rw [hh]; norm_num)).1
    exact this (by rw [hw, hh, hc]; exact ⟨rfl, rfl⟩)
  · have := (ensure_gradient_cache_rule ⟨(0, 0, 0), (0, 0), none, 7⟩
      2 1 (1/2) (1/2) (1/2) 1 (by rw [hw]; norm_num) (by rw [hh]; norm_num)).2
    have hres := (this (by rw [hw, hh]; rintro ⟨hd, -⟩; exact absurd hd (by decide))).1
    rw [hres, hw, hh, hc]

/-- The spec's Color Value range invariant, as a predicate: all four
channels lie in [0, 1]. -/
def channelsInRange (c : SolidColor) : Prop :=
  0 ≤ c.r ∧ c.r ≤ 1 ∧ 0 ≤ c.g ∧ c.g ≤ 1 ∧ 0 ≤ c.b ∧ c.b ≤ 1 ∧ 0 ≤ c.a ∧ c.a ≤ 1

/-- C8 counterexample: `from_rgba` stores its raw arguments without any
clamping, so `from_rgba(2, 0, 0, 1)` violates the range invariant. -/
theorem from_rgba_range_cex :
    ¬ channelsInRange (SolidColor.from_rgba 2 0 0 1) := by
  intro hc
  have hr := hc.2.1
  norm_num [SolidColor.from_rgba] at hr

/-- The six branch values of `hsb_to_rgb`, indexed by the sector. -/
def sectorTriple (k : ℕ) (f s v : ℚ) : ℚ × ℚ × ℚ :=
  match k with
  | 0 => (v, v * (1 - s * (1 - f)), v * (1 - s))
  | 1 => (v * (1 - s * f), v, v * (1 - s))
  | 2 => (v * (1 - s), v, v * (1 - s * (1 - f)))
  | 3 => (v * (1 - s), v * (1 - s * f), v)
  | 4 => (v * (1 - s * (1 - f)), v * (1 - s), v)
  | _ => (v, v * (1 - s), v * (1 - s * f))

/-- `hsb_to_rgb` with nonzero saturation lands in the sector selected by the
floor of `6h` (after the Rust `%` and `as u32` steps), with fractional part
`f`. -/
theorem hsb_to_rgb_of_ne (h s v : ℚ) (hs : s ≠ 0) :
    hsb_to_rgb h s v =
      sectorTriple (u32sat ⌊rustRem (h * 6) 6⌋ % 6)
        (rustRem (h * 6) 6 - (⌊rustRem (h * 6) 6⌋ : ℚ)) s v := by
  unfold hsb_to_rgb sectorTriple
  rw [if_neg hs]

/-- Every sector triple has components in [0, 1] for in-range inputs. -/
theorem sectorTriple_range (k : ℕ) (f s v : ℚ) (hf0 : 0 ≤ f) (hf1 : f ≤ 1)
    (hs0 : 0 ≤ s) (hs1 : s ≤ 1) (hv0 : 0 ≤ v) (hv1 : v ≤ 1) :
    0 ≤ (sectorTriple k f s v).1 ∧ (sectorTriple k f s v).1 ≤ 1 ∧
    0 ≤ (sectorTriple k f s v).2.1 ∧ (sectorTriple k f s v).2.1 ≤ 1 ∧
    0 ≤ (sectorTriple k f s v).2.2 ∧ (sectorTriple k f s v).2.2 ≤ 1 := by
  have hsf0 : 0 ≤ s * f := mul_nonneg hs0 hf0
  have hsf1 : s * f ≤ 1 := by nlinarith
  have hsg0 : 0 ≤ s * (1 - f) := mul_nonneg hs0 (by linarith)
  have hsg1 : s * (1 - f) ≤ 1 := by nlinarith
  have hp0 : 0 ≤ v * (1 - s) := mul_nonneg hv0 (by linarith)
  have hp1 : v * (1 - s) ≤ 1 := mul_le_one₀ hv1 (by linarith) (by linarith)
  have hq0 : 0 ≤ v * (1 - s * f) := mul_nonneg hv0 (by linarith)
  have hq1 : v * (1 - s * f) ≤ 1 := mul_le_one₀ hv1 (by linarith) (by linarith)
  have ht0 : 0 ≤ v * (1 - s * (1 - f)) := mul_nonneg hv0 (by linarith)
  have ht1 : v * (1 - s * (1 - f)) ≤ 1 := mul_le_one₀ hv1 (by linarith) (by linarith)
  rcases k with _ | _ | _ | _ | _ | k
  · exact ⟨hv0, hv1, ht0, ht1, hp0, hp1⟩
  · exact ⟨hq0, hq1, hv0, hv1, hp0, hp1⟩
  · exact ⟨hp0, hp1, hv0, hv1, ht0, ht1⟩
  · exact ⟨hp0, hp1, hq0, hq1, hv0, hv1⟩
  · exact ⟨ht0, ht1, hp0, hp1, hv0, hv1⟩
  · exact ⟨hv0, hv1, hp0, hp1, hq0, hq1⟩

/-- `hsb_to_rgb` maps in-range saturation and value (any hue) into [0, 1]³. -/
theorem hsb_to_rgb_range (h s v : ℚ) (hs0 : 0 ≤ s) (hs1 : s ≤ 1)
    (hv0 : 0 ≤ v) (hv1 : v ≤ 1) :
    0 ≤ (hsb_to_rgb h s v).1 ∧ (hsb_to_rgb h s v).1 ≤ 1 ∧
    0 ≤ (hsb_to_rgb h s v).2.1 ∧ (hsb_to_rgb h s v).2.1 ≤ 1 ∧
    0 ≤ (hsb_to_rgb h s v).2.2 ∧ (hsb_to_rgb h s v).2.2 ≤ 1 := by
  by_cases hs : s = 0
  · have heq : hsb_to_rgb h s v = (v, v, v) := by
      unfold hsb_to_rgb
      rw [if_pos hs]
    rw [heq]
    exact ⟨hv0, hv1, hv0, hv1, hv0, hv1⟩
  · rw [hsb_to_rgb_of_ne h s v hs]
    have hfr : rustRem (h * 6) 6 - (⌊rustRem (h * 6) 6⌋ : ℚ) =
        Int.fract (rustRem (h * 6) 6) := rfl
    exact sectorTriple_range _ _ s v (by rw [hfr]; exact Int.fract_nonneg _)
      (by rw [hfr]; exact (Int.fract_lt_one _).le) hs0 hs1 hv0 hv1

/-- `hsl_to_hsb` maps in-range HSL saturation and lightness to in-range HSB
saturation and value. -/
theorem hsl_to_hsb_range (h s l : ℚ) (hs0 : 0 ≤ s) (hs1 : s ≤ 1)
    (hl0 : 0 ≤ l) (hl1 : l ≤ 1) :
    0 ≤ (hsl_to_hsb h s l).2.1 ∧ (hsl_to_hsb h s l).2.1 ≤ 1 ∧
    0 ≤ (hsl_to_hsb h s l).2.2 ∧ (hsl_to_hsb h s l).2.2 ≤ 1 := by
  have hmin0 : 0 ≤ min l (1 - l) := le_min hl0 (by linarith)
  have hminl : min l (1 - l) ≤ l := min_le_left _ _
  have hminr : min l (1 - l) ≤ 1 - l := min_le_right _ _
  have hsmin : s * min l (1 - l) ≤ min l (1 - l) := by nlinarith
  have hsmin0 : 0 ≤ s * min l (1 - l) := mul_nonneg hs0 hmin0
  have hv0 : 0 ≤ l + s * min l (1 - l) := by linarith
  have hv1 : l + s * min l (1 - l) ≤ 1 := by linarith
  have hvl : l ≤ l + s * min l (1 - l) := by linarith
  show 0 ≤ (if l + s * min l (1 - l) = 0 then (0:ℚ)
      else 2 * (1 - l / (l + s * min l (1 - l)))) ∧
    (if l + s * min l (1 - l) = 0 then (0:ℚ)
      else 2 * (1 - l / (l + s * min l (1 - l)))) ≤ 1 ∧
    0 ≤ l + s * min l (1 - l) ∧ l + s * min l (1 - l) ≤ 1
  by_cases hv : l + s * min l (1 - l) = 0
  · rw [if_pos hv]
    exact ⟨le_refl 0, by norm_num, hv0, hv1⟩
  · rw [if_neg hv]
    have hvpos : 0 < l + s * min l (1 - l) := lt_of_le_of_ne hv0 (Ne.symm hv)
    have h1 : l / (l + s * min l (1 - l)) ≤ 1 := by
      rw [div_le_one hvpos]
      exact hvl
    have h2 : 1/2 ≤ l / (l + s * min l (1 - l)) := by
      rw [le_div_iff₀ hvpos]
      nlinarith
    exact ⟨by linarith, by linarith, hv0, hv1⟩

/-- A single parsed hex digit is at most 15. -/
theorem hexDigitVal_le (c : Char) : hexDigitVal c ≤ 15 := by
  unfold hexDigitVal
  split_ifs <;> omega

/-- A parsed hex digit pair is at most 255. -/
theorem hexPairVal_le (l : List Char) (i : ℕ) : hexPairVal l i ≤ 255 := by
  have h1 := hexDigitVal_le (l.getD i '0')
  have h2 := hexDigitVal_le (l.getD (i + 1) '0')
  unfold hexPairVal
  omega

/-- A byte over 255 lies in [0, 1]. -/
theorem byte_div_range (n : ℕ) (hn : n ≤ 255) :
    0 ≤ (n : ℚ) / 255 ∧ (n : ℚ) / 255 ≤ 1 := by
  constructor
  · positivity
  · rw [div_le_one (by norm_num)]
    exact_mod_cast hn

/-- A nibble-doubled digit value over 255 lies in [0, 1]. -/
theorem digit17_div_range (c : Char) :
    0 ≤ (hexDigitVal c : ℚ) * 17 / 255 ∧ (hexDigitVal c : ℚ) * 17 / 255 ≤ 1 := by
  have h := hexDigitVal_le c
  constructor
  · positivity
  · rw [div_le_one (by norm_num)]
    have hc : (hexDigitVal c : ℚ) ≤ 15 := by exact_mod_cast h
    linarith

/-- Every successfully parsed hex color is in range. -/
theorem from_hex_range (hx : List Char) (c : SolidColor)
    (hp : SolidColor.from_hex hx = some c) : channelsInRange c := by
  simp only [SolidColor.from_hex] at hp
  by_cases hall : (stripHash hx).all isAsciiHexDigit = true
  · rw [if_neg (by simpa using hall)] at hp
    by_cases h3 : (stripHash hx).length = 3
    · rw [if_pos h3] at hp
      cases Option.some.inj hp
      exact ⟨(digit17_div_range _).1, (digit17_div_range _).2,
        (digit17_div_range _).1, (digit17_div_range _).2,
        (digit17_div_range _).1, (digit17_div_range _).2,
        by norm_num, by norm_num⟩
    · rw [if_neg h3] at hp
      by_cases h6 : (stripHash hx).length = 6
      · rw [if_pos h6] at hp
        cases Option.some.inj hp
        exact ⟨(byte_div_range _ (hexPairVal_le _ _)).1,
          (byte_div_range _ (hexPairVal_le _ _)).2,
          (byte_div_range _ (hexPairVal_le _ _)).1,
          (byte_div_range _ (hexPairVal_le _ _)).2,
          (byte_div_range _ (hexPairVal_le _ _)).1,
          (byte_div_range _ (hexPairVal_le _ _)).2,
          by norm_num, by norm_num⟩
      · rw [if_neg h6] at hp
        by_cases h8 : (stripHash hx).length = 8
        · rw [if_pos h8] at hp
          cases Option.some.inj hp
          exact ⟨(byte_div_range _ (hexPairVal_le _ _)).1,
            (byte_div_range _ (hexPairVal_le _ _)).2,
            (byte_div_range _ (hexPairVal_le _ _)).1,
            (byte_div_range _ (hexPairVal_le _ _)).2,
            (byte_div_range _ (hexPairVal_le _ _)).1,
            (byte_div_range _ (hexPairVal_le _ _)).2,
            (byte_div_range _ (hexPairVal_le _ _)).1,
            (byte_div_range _ (hexPairVal_le _ _)).2⟩
        · rw [if_neg h8] at hp
          exact Option.noConfusion hp
  · rw [if_pos (by simpa using hall)] at hp
    exact Option.noConfusion hp

/-- C8 as amended: `from_rgb`, `from_hex` and the default color always
satisfy the range invariant, and `from_hsb`, `from_hsl`, `from_rgba`
satisfy it whenever their own arguments are in range — but `from_rgba`
performs no clamping, so out-of-range arguments yield out-of-range values
(see the counterexample); no operation mutates a `SolidColor` in place (all
operations are pure functions producing new values). -/
theorem constructor_ranges :
    (∀ r g b : ℕ, r ≤ 255 → g ≤ 255 → b ≤ 255 →
      channelsInRange (SolidColor.from_rgb r g b)) ∧
    channelsInRange SolidColor.default ∧
    (∀ hx c, SolidColor.from_hex hx = some c → channelsInRange c) ∧
    (∀ h s b a : ℚ, 0 ≤ s → s ≤ 1 → 0 ≤ b → b ≤ 1 → 0 ≤ a → a ≤ 1 →
      channelsInRange (SolidColor.from_hsb h s b a)) ∧
    (∀ h s l a : ℚ, 0 ≤ s → s ≤ 1 → 0 ≤ l → l ≤ 1 → 0 ≤ a → a ≤ 1 →
      channelsInRange (SolidColor.from_hsl h s l a)) ∧
    (∀ r g b a : ℚ, 0 ≤ r → r ≤ 1 → 0 ≤ g → g ≤ 1 → 0 ≤ b → b ≤ 1 →
      0 ≤ a → a ≤ 1 → channelsInRange (SolidColor.from_rgba r g b a)) := by
  refine ⟨?_, ?_, ?_, ?_, ?_, ?_⟩
  · intro r g b hr hg hb
    exact ⟨(byte_div_range r hr).1, (byte_div_range r hr).2,
      (byte_div_range g hg).1, (byte_div_range g hg).2,
      (byte_div_range b hb).1, (byte_div_range b hb).2,
      by norm_num [SolidColor.from_rgb], by norm_num [SolidColor.from_rgb]⟩
  · exact ⟨by norm_num [SolidColor.default], by norm_num [SolidColor.default],
      by norm_num [SolidColor.default], by norm_num [SolidColor.default],
      by norm_num [SolidColor.default], by norm_num [SolidColor.default],
      by norm_num [SolidColor.default], by norm_num [SolidColor.default]⟩
  · exact from_hex_range
  · intro h s b a hs0 hs1 hb0 hb1 ha0 ha1
    obtain ⟨h1, h2, h3, h4, h5, h6⟩ := hsb_to_rgb_range h s b hs0 hs1 hb0 hb1
    exact ⟨h1, h2, h3, h4, h5, h6, ha0, ha1⟩
  · intro h s l a hs0 hs1 hl0 hl1 ha0 ha1
    obtain ⟨k1, k2, k3, k4⟩ := hsl_to_hsb_range h s l hs0 hs1 hl0 hl1
    obtain ⟨h1, h2, h3, h4, h5, h6⟩ :=
      hsb_to_rgb_range (hsl_to_hsb h s l).1 (hsl_to_hsb h s l).2.1
        (hsl_to_hsb h s l).2.2 k1 k2 k3 k4
    exact ⟨h1, h2, h3, h4, h5, h6, ha0, ha1⟩
  · intro r g b a hr0 hr1 hg0 hg1 hb0 hb1 ha0 ha1
    exact ⟨hr0, hr1, hg0, hg1, hb0, hb1, ha0, ha1⟩

/-- Witness for the amended C8 at concrete constructor calls. -/
theorem constructor_ranges_witness :
    channelsInRange (SolidColor.from_rgb 255 0 0) ∧
    channelsInRange (SolidColor.from_hsb 0 1 1 1) ∧
    channelsInRange (SolidColor.from_rgba (1/2) 0 1 1) :=
  ⟨constructor_ranges.1 255 0 0 (by norm_num) (by norm_num) (by norm_num),
    constructor_ranges.2.2.2.1 0 1 1 1 (by norm_num) (by norm_num)
      (by norm_num) (by norm_num) (by norm_num) (by norm_num),
    constructor_ranges.2.2.2.2.2 (1/2) 0 1 1 (by norm_num) (by norm_num)
      (by norm_num) (by norm_num) (by norm_num) (by norm_num)
      (by norm_num) (by norm_num)⟩

/-- Unfolding of `rgb_to_hsb`. -/
theorem rgb_to_hsb_eq (r g b : ℚ) :
    rgb_to_hsb r g b =
      (if max (max r g) b - min (min r g) b = 0 then 0
        else if max (max r g) b = r then
          remEuclid ((g - b) / (max (max r g) b - min (min r g) b)) 6 / 6
        else if max (max r g) b = g then
          ((b - r) / (max (max r g) b - min (min r g) b) + 2) / 6
        else ((r - g) / (max (max r g) b - min (min r g) b) + 4) / 6,
       if max (max r g) b = 0 then 0
        else (max (max r g) b - min (min r g) b) / max (max r g) b,
       max (max r g) b) :=
  rfl

/-- `rgb_to_hsb` on the sector-0 triple `(v, t, p)`. -/
theorem rgb_to_hsb_sector0 (s v f : ℚ) (hs : 0 < s) (hv : 0 < v)
    (hf0 : 0 ≤ f) (hf1 : f < 1) :
    rgb_to_hsb v (v * (1 - s * (1 - f))) (v * (1 - s)) = (f/6, s, v) := by
  have htv : v * (1 - s * (1 - f)) ≤ v := by
    nlinarith [mul_nonneg (mul_nonneg hv.le hs.le) (sub_nonneg.2 hf1.le)]
  have hpv : v * (1 - s) ≤ v := by nlinarith
  have hpt : v * (1 - s) ≤ v * (1 - s * (1 - f)) := by nlinarith
  have hvs : (0:ℚ) < v * s := mul_pos hv hs
  rw [rgb_to_hsb_eq, max_eq_left htv, max_eq_left hpv, min_eq_right htv,
    min_eq_right hpt, show v - v * (1 - s) = v * s from by ring,
    if_neg hvs.ne', if_pos rfl, if_neg hv.ne',
    show v * (1 - s * (1 - f)) - v * (1 - s) = v * s * f from by ring,
    mul_div_cancel_left₀ f hvs.ne', mul_div_cancel_left₀ s hv.ne',
    show remEuclid f 6 = f from by
      unfold remEuclid
      rw [show ⌊f / 6⌋ = 0 from Int.floor_eq_zero_iff.mpr
        ⟨by linarith, by linarith⟩]
      push_cast
      ring]

/-- `rgb_to_hsb` on the sector-1 triple `(q, v, p)`. -/
theorem rgb_to_hsb_sector1 (s v f : ℚ) (hs : 0 < s) (hv : 0 < v)
    (hf0 : 0 ≤ f) (hf1 : f < 1) :
    rgb_to_hsb (v * (1 - s * f)) v (v * (1 - s)) = ((1 + f)/6, s, v) := by
  have hqv : v * (1 - s * f) ≤ v := by
    nlinarith [mul_nonneg (mul_nonneg hv.le hs.le) hf0]
  have hpv : v * (1 - s) ≤ v := by nlinarith
  have hpq : v * (1 - s) ≤ v * (1 - s * f) := by nlinarith
  have hvs : (0:ℚ) < v * s := mul_pos hv hs
  rw [rgb_to_hsb_eq, max_eq_right hqv, max_eq_left hpv, min_eq_left hqv,
    min_eq_right hpq, show v - v * (1 - s) = v * s from by ring,
    if_neg hvs.ne']
  by_cases hf : f = 0
  · subst hf
    rw [if_pos (show v = v * (1 - s * 0) from by ring),
      div_self hvs.ne', if_neg hv.ne', mul_div_cancel_left₀ s hv.ne',
      show remEuclid 1 6 = 1 from by
        unfold remEuclid
        rw [show ⌊(1:ℚ) / 6⌋ = 0 from Int.floor_eq_zero_iff.mpr
          ⟨by norm_num, by norm_num⟩]
        push_cast
        ring]
    norm_num
  · have hfpos : 0 < f := lt_of_le_of_ne hf0 (Ne.symm hf)
    rw [if_neg (show ¬v = v * (1 - s * f) from by intro heq; nlinarith),
      if_pos rfl, if_neg hv.ne', mul_div_cancel_left₀ s hv.ne',
      show v * (1 - s) - v * (1 - s * f) = v * s * (f - 1) from by ring,
      mul_div_cancel_left₀ (f - 1) hvs.ne',
      show f - 1 + 2 = 1 + f from by ring]

/-- `rgb_to_hsb` on the sector-2 triple `(p, v, t)`. -/
theorem rgb_to_hsb_sector2 (s v f : ℚ) (hs : 0 < s) (hv : 0 < v)
    (hf0 : 0 ≤ f) (hf1 : f < 1) :
    rgb_to_hsb (v * (1 - s)) v (v * (1 - s * (1 - f))) = ((2 + f)/6, s, v) := by
  have htv : v * (1 - s * (1 - f)) ≤ v := by
    nlinarith [mul_nonneg (mul_nonneg hv.le hs.le) (sub_nonneg.2 hf1.le)]
  have hpv : v * (1 - s) ≤ v := by nlinarith
  have hpt : v * (1 - s) ≤ v * (1 - s * (1 - f)) := by nlinarith
  have hvs : (0:ℚ) < v * s := mul_pos hv hs
  rw [rgb_to_hsb_eq, max_eq_right hpv, max_eq_left htv, min_eq_left hpv,
    min_eq_left hpt, show v - v * (1 - s) = v * s from by ring,
    if_neg hvs.ne',
    if_neg (show ¬v = v * (1 - s) from by intro heq; nlinarith),
    if_pos rfl, if_neg hv.ne', mul_div_cancel_left₀ s hv.ne',
    show v * (1 - s * (1 - f)) - v * (1 - s) = v * s * f from by ring,
    mul_div_cancel_left₀ f hvs.ne', show f + 2 = 2 + f from by ring]

/-- `rgb_to_hsb` on the sector-3 triple `(p, q, v)`. -/
theorem rgb_to_hsb_sector3 (s v f : ℚ) (hs : 0 < s) (hv : 0 < v)
    (hf0 : 0 ≤ f) (hf1 : f < 1) :
    rgb_to_hsb (v * (1 - s)) (v * (1 - s * f)) v = ((3 + f)/6, s, v) := by
  have hqv : v * (1 - s * f) ≤ v := by
    nlinarith [mul_nonneg (mul_nonneg hv.le hs.le) hf0]
  have hpv : v * (1 - s) ≤ v := by nlinarith
  have hpq : v * (1 - s) ≤ v * (1 - s * f) := by nlinarith
  have hvs : (0:ℚ) < v * s := mul_pos hv hs
  rw [rgb_to_hsb_eq, max_eq_right (max_le hpv hqv), min_eq_left hpq,
    min_eq_left hpv, show v - v * (1 - s) = v * s from by ring,
    if_neg hvs.ne',
    if_neg (show ¬v = v * (1 - s) from by intro heq; nlinarith)]
  by_cases hf : f = 0
  · subst hf
    rw [if_pos (show v = v * (1 - s * 0) from by ring),
      div_self hvs.ne', if_neg hv.ne', mul_div_cancel_left₀ s hv.ne']
    norm_num
  · have hfpos : 0 < f := lt_of_le_of_ne hf0 (Ne.symm hf)
    rw [if_neg (show ¬v = v * (1 - s * f) from by intro heq; nlinarith),
      if_neg hv.ne', mul_div_cancel_left₀ s hv.ne',
      show v * (1 - s) - v * (1 - s * f) = v * s * (f - 1) from by ring,
      mul_div_cancel_left₀ (f - 1) hvs.ne',
      show f - 1 + 4 = 3 + f from by ring]

/-- `rgb_to_hsb` on the sector-4 triple `(t, p, v)`. -/
theorem rgb_to_hsb_sector4 (s v f : ℚ) (hs : 0 < s) (hv : 0 < v)
    (hf0 : 0 ≤ f) (hf1 : f < 1) :
    rgb_to_hsb (v * (1 - s * (1 - f))) (v * (1 - s)) v = ((4 + f)/6, s, v) := by
  have htv : v * (1 - s * (1 - f)) ≤ v := by
    nlinarith [mul_nonneg (mul_nonneg hv.le hs.le) (sub_nonneg.2 hf1.le)]
  have hpv : v * (1 - s) ≤ v := by nlinarith
  have hpt : v * (1 - s) ≤ v * (1 - s * (1 - f)) := by nlinarith
  have hvs : (0:ℚ) < v * s := mul_pos hv hs
  rw [rgb_to_hsb_eq, max_eq_right (max_le htv hpv), min_eq_right hpt,
    min_eq_left hpv, show v - v * (1 - s) = v * s from by ring,
    if_neg hvs.ne',
    if_neg (show ¬v = v * (1 - s * (1 - f)) from by intro heq; nlinarith),
    if_neg (show ¬v = v * (1 - s) from by intro heq; nlinarith),
    if_neg hv.ne', mul_div_cancel_left₀ s hv.ne',
    show v * (1 - s * (1 - f)) - v * (1 - s) = v * s * f from by ring,
    mul_div_cancel_left₀ f hvs.ne', show f + 4 = 4 + f from by ring]

/-- `rgb_to_hsb` on the sector-5 triple `(v, p, q)`. -/
theorem rgb_to_hsb_sector5 (s v f : ℚ) (hs : 0 < s) (hv : 0 < v)
    (hf0 : 0 ≤ f) (hf1 : f < 1) :
    rgb_to_hsb v (v * (1 - s)) (v * (1 - s * f)) = ((5 + f)/6, s, v) := by
  have hqv : v * (1 - s * f) ≤ v := by
    nlinarith [mul_nonneg (mul_nonneg hv.le hs.le) hf0]
  have hpv : v * (1 - s) ≤ v := by nlinarith
  have hpq : v * (1 - s) ≤ v * (1 - s * f) := by nlinarith
  have hvs : (0:ℚ) < v * s := mul_pos hv hs
  rw [rgb_to_hsb_eq, max_eq_left hpv, max_eq_left hqv, min_eq_right hpv,
    min_eq_left hpq, show v - v * (1 - s) = v * s from by ring,
    if_neg hvs.ne', if_pos rfl, if_neg hv.ne',
    mul_div_cancel_left₀ s hv.ne',
    show v * (1 - s) - v * (1 - s * f) = v * s * (f - 1) from by ring,
    mul_div_cancel_left₀ (f - 1) hvs.ne',
    show remEuclid (f - 1) 6 = 5 + f from by
      unfold remEuclid
      rw [show ⌊(f - 1) / 6⌋ = -1 from Int.floor_eq_iff.mpr
        ⟨by push_cast; linarith, by push_cast; linarith⟩]
      push_cast
      ring]

/-- The round trip on any of the six sector triples reproduces
`((k + f)/6, s, v)`. -/
theorem roundtrip_core (k : ℤ) (f s v : ℚ) (hk0 : 0 ≤ k) (hk5 : k ≤ 5)
    (hf0 : 0 ≤ f) (hf1 : f < 1) (hs : 0 < s) (hv : 0 < v) :
    rgb_to_hsb (sectorTriple (u32sat k % 6) f s v).1
      (sectorTriple (u32sat k % 6) f s v).2.1
      (sectorTriple (u32sat k % 6) f s v).2.2 = (((k : ℚ) + f)/6, s, v) := by
  have hcases : k = 0 ∨ k = 1 ∨ k = 2 ∨ k = 3 ∨ k = 4 ∨ k = 5 := by omega
  rcases hcases with rfl | rfl | rfl | rfl | rfl | rfl
  · show rgb_to_hsb v (v * (1 - s * (1 - f))) (v * (1 - s)) =
      (((0:ℤ) + f)/6, s, v)
    rw [show (((0:ℤ):ℚ) + f)/6 = f/6 from by push_cast; ring]
    exact rgb_to_hsb_sector0 s v f hs hv hf0 hf1
  · show rgb_to_hsb (v * (1 - s * f)) v (v * (1 - s)) =
      (((1:ℤ) + f)/6, s, v)
    rw [show (((1:ℤ):ℚ) + f)/6 = (1 + f)/6 from by push_cast; ring]
    exact rgb_to_hsb_sector1 s v f hs hv hf0 hf1
  · show rgb_to_hsb (v * (1 - s)) v (v * (1 - s * (1 - f))) =
      (((2:ℤ) + f)/6, s, v)
    rw [show (((2:ℤ):ℚ) + f)/6 = (2 + f)/6 from by push_cast; ring]
    exact rgb_to_hsb_sector2 s v f hs hv hf0 hf1
  · show rgb_to_hsb (v * (1 - s)) (v * (1 - s * f)) v =
      (((3:ℤ) + f)/6, s, v)
    rw [show (((3:ℤ):ℚ) + f)/6 = (3 + f)/6 from by push_cast; ring]
    exact rgb_to_hsb_sector3 s v f hs hv hf0 hf1
  · show rgb_to_hsb (v * (1 - s * (1 - f))) (v * (1 - s)) v =
      (((4:ℤ) + f)/6, s, v)
    rw [show (((4:ℤ):ℚ) + f)/6 = (4 + f)/6 from by push_cast; ring]
    exact rgb_to_hsb_sector4 s v f hs hv hf0 hf1
  · show rgb_to_hsb v (v * (1 - s)) (v * (1 - s * f)) =
      (((5:ℤ) + f)/6, s, v)
    rw [show (((5:ℤ):ℚ) + f)/6 = (5 + f)/6 from by push_cast; ring]
    exact rgb_to_hsb_sector5 s v f hs hv hf0 hf1

/-- The exact round trip: for hue in its domain [0, 1) and positive
saturation and value, `rgb_to_hsb` after `hsb_to_rgb` reproduces the HSB
triple exactly (in exact rational arithmetic). -/
theorem hsb_rgb_roundtrip_exact (h s v : ℚ) (hh0 : 0 ≤ h) (hh1 : h < 1)
    (hs : 0 < s) (hv : 0 < v) :
    rgb_to_hsb (hsb_to_rgb h s v).1 (hsb_to_rgb h s v).2.1
      (hsb_to_rgb h s v).2.2 = (h, s, v) := by
  rw [hsb_to_rgb_of_ne h s v hs.ne']
  have hrem : rustRem (h * 6) 6 = h * 6 := by
    unfold rustRem ratTrunc
    rw [show h * 6 / 6 = h from by ring, if_pos hh0,
      show ⌊h⌋ = 0 from Int.floor_eq_zero_iff.mpr ⟨hh0, hh1⟩]
    push_cast
    ring
  rw [hrem]
  have hk0 : (0:ℤ) ≤ ⌊h * 6⌋ := Int.floor_nonneg.mpr (by linarith)
  have hk5 : ⌊h * 6⌋ ≤ 5 := by
    have h6 : ⌊h * 6⌋ < 6 := Int.floor_lt.mpr (by push_cast; linarith)
    omega
  have hf0 : 0 ≤ h * 6 - (⌊h * 6⌋ : ℚ) := sub_nonneg.2 (Int.floor_le _)
  have hf1 : h * 6 - (⌊h * 6⌋ : ℚ) < 1 := by
    have := Int.lt_floor_add_one (h * 6)
    linarith
  rw [roundtrip_core ⌊h * 6⌋ (h * 6 - (⌊h * 6⌋ : ℚ)) s v hk0 hk5 hf0 hf1 hs hv,
    show ((⌊h * 6⌋ : ℚ) + (h * 6 - (⌊h * 6⌋ : ℚ)))/6 = h from by ring]

/-- C6: for every HSB triple with hue in its [0, 1) domain, saturation above
1e-3 and value strictly between 1e-3 and 1 − 1e-3, converting to RGB with
`hsb_to_rgb` and back with `rgb_to_hsb` reproduces hue, saturation and value
componentwise within 1e-3 (the round trip is in fact exact). -/
theorem hsb_rgb_roundtrip_tolerance (h s v : ℚ) (hh0 : 0 ≤ h) (hh1 : h < 1)
    (hs : 1/1000 < s) (hv1 : 1/1000 < v) (_hv2 : v < 1 - 1/1000) :
    |(rgb_to_hsb (hsb_to_rgb h s v).1 (hsb_to_rgb h s v).2.1
        (hsb_to_rgb h s v).2.2).1 - h| ≤ 1/1000 ∧
    |(rgb_to_hsb (hsb_to_rgb h s v).1 (hsb_to_rgb h s v).2.1
        (hsb_to_rgb h s v).2.2).2.1 - s| ≤ 1/1000 ∧
    |(rgb_to_hsb (hsb_to_rgb h s v).1 (hsb_to_rgb h s v).2.1
        (hsb_to_rgb h s v).2.2).2.2 - v| ≤ 1/1000 := by
  rw [hsb_rgb_roundtrip_exact h s v hh0 hh1 (by linarith) (by linarith)]
  norm_num

/-- Witness for C6 at the pure-red-at-half-value triple (0, 1, 1/2). -/
theorem hsb_rgb_roundtrip_tolerance_witness :
    |(rgb_to_hsb (hsb_to_rgb 0 1 (1/2)).1 (hsb_to_rgb 0 1 (1/2)).2.1
        (hsb_to_rgb 0 1 (1/2)).2.2).1 - 0| ≤ 1/1000 ∧
    |(rgb_to_hsb (hsb_to_rgb 0 1 (1/2)).1 (hsb_to_rgb 0 1 (1/2)).2.1
        (hsb_to_rgb 0 1 (1/2)).2.2).2.1 - 1| ≤ 1/1000 ∧
    |(rgb_to_hsb (hsb_to_rgb 0 1 (1/2)).1 (hsb_to_rgb 0 1 (1/2)).2.1
        (hsb_to_rgb 0 1 (1/2)).2.2).2.2 - 1/2| ≤ 1/1000 :=
  hsb_rgb_roundtrip_tolerance 0 1 (1/2) (by norm_num) (by norm_num)
    (by norm_num) (by norm_num) (by norm_num)

end FloemPicker
